import Mathlib

/-!
# Libertine container configuration store

A shallow embedding of `ContainerConfigList` (src/libertine/ContainerConfigList.cpp):
the ordered sequence of container records, the default-container key, the
identifier disambiguation (`generate_bis`), `addNewContainer` and
`deleteContainer`, the lookups, the installed packages, the list model's
`data`, the JSON form of the store and `load_config`.

Conventions of the embedding.

* A `QString` is the list of its characters; the null and the empty string are
  both `[]` (Qt compares them equal).
* A C++ `int` is an `Int`.  The only place where the value can leave the range
  of a 32-bit `int` is the final `+ 1` of `generate_bis`, which is wrapped
  explicitly (`wrapInt`); `QString::toInt` checks the range itself.
* Qt decides some questions from data that is not part of this repository:
  the Unicode class of a character beyond ASCII and the number format of the
  default locale.  These are the fields of `QtEnv`; on ASCII characters the
  definitions below do not consult them.
* Change announcements (`beginInsertRows`, `endRemoveRows`, ...) do not change
  the store and are left out.
* What belongs to the classes of libertine/ContainerConfig.h and to Qt's JSON
  parser is an argument of the definition that uses it (`statusText`,
  `statusCode`, `configToJson`, `configFromJson`, `parse`).
-/

namespace Libertine

/-- A `QString`, as the sequence of its characters. -/
abbrev QString := List Char

/-- Data Qt consults outside this repository: the Unicode classification of the
characters beyond ASCII and the number format of the default locale. -/
structure QtEnv where
  /-- `QChar::isLetterOrNumber() || QChar::isMark()` beyond ASCII. -/
  wordBeyondAscii : Char → Bool
  /-- `QChar::isDigit()` beyond ASCII. -/
  digitBeyondAscii : Char → Bool
  /-- `QChar::digitValue()` beyond ASCII (`none` for -1). -/
  digitValueBeyondAscii : Char → Option (Fin 10)
  /-- `QLocale().toString(n)`, used by `QString::arg(int)` for `%L` markers. -/
  localeNumber : Int → QString

/-- The decimal numeral Qt prints for an `int` in the C locale. -/
def intToString (n : Int) : QString :=
  if n < 0 then '-' :: Nat.toDigits 10 n.natAbs else Nat.toDigits 10 n.toNat

/-- A `QtEnv` in which no character beyond ASCII is a letter, mark or digit
and the locale prints numbers as the C locale does. -/
def QtEnv.ascii : QtEnv :=
  ⟨fun _ => false, fun _ => false, fun _ => none, intToString⟩

/-- The class `\w` of QRegExp: `QChar::isLetterOrNumber()`, `QChar::isMark()`
or `'_'`. -/
def isWordChar (env : QtEnv) (c : Char) : Bool :=
  if c.toNat < 128 then c.isAlphanum || c == '_' else env.wordBeyondAscii c

/-- The class `\d` of QRegExp: `QChar::isDigit()`. -/
def isDigitChar (env : QtEnv) (c : Char) : Bool :=
  if c.toNat < 128 then c.isDigit else env.digitBeyondAscii c

/-- `QChar::digitValue()`, with `none` for -1. -/
def digitValue (env : QtEnv) (c : Char) : Option Nat :=
  if c.toNat < 128 then (if c.isDigit then some (c.toNat - 48) else none)
  else (env.digitValueBeyondAscii c).map Fin.val

/-- `QRegExp("^(\\w*)(?:-(\\d+))?$", Qt::CaseInsensitive).indexIn(s)` together
with the two captures: `none` when `indexIn` returns -1, otherwise
`some (cap(1), cap(2))`.

The pattern is anchored at both ends, so it matches the whole string or
nothing.  `\w*` is greedy and `'-'` is not a word character, hence the first
group is the longest run of word characters at the start; what follows must be
empty (the optional group does not take part and `cap(2)` is empty) or `'-'`
followed by one or more `\d` characters up to the end.  Case insensitivity is
without effect: the only literal of the pattern is `'-'`. -/
def reCaptures (env : QtEnv) (s : QString) : Option (QString × QString) :=
  match s.dropWhile (isWordChar env) with
  | [] => some (s.takeWhile (isWordChar env), [])
  | c :: ds =>
    if c = '-' ∧ ds ≠ [] ∧ ds.all (isDigitChar env) = true then
      some (s.takeWhile (isWordChar env), ds)
    else none

/-- The largest value of a C++ `int`. -/
def INT_MAX : Int := 2147483647

/-- The value of the decimal numeral `s` (ASCII digits), most significant
digit first. -/
def decimalValue (s : QString) : Nat :=
  s.foldl (fun acc c => 10 * acc + (c.toNat - 48)) 0

/-- `QString::toInt(&ok)` on a string the group `(\d+)` can capture (empty, or
`\d` characters only): the pair `(ok, value)`.  The conversion is done in the
C locale, which reads ASCII digits only, and fails (`ok = false`, value 0) on
the empty string, on any other character and on a value beyond `INT_MAX`. -/
def toInt (s : QString) : Bool × Int :=
  if s ≠ [] ∧ s.all Char.isDigit = true ∧ (decimalValue s : Int) ≤ INT_MAX then
    (true, (decimalValue s : Int))
  else (false, 0)

/-- Two's-complement wrap of an integer to the range of a 32-bit `int`. -/
def wrapInt (n : Int) : Int :=
  (n + 2147483648) % 4294967296 - 2147483648

/-- A piece of a format string, as `QString::arg` reads it: a character of
plain text, or a place marker (`%1` ... `%99`, `%L1` ...) with its number,
whether it carries the `L` flag, and its own text. -/
inductive ArgPiece where
  | text (c : Char)
  | marker (locale : Bool) (number : Nat) (raw : QString)
  deriving DecidableEq, Repr

/-- What the scanner of `QString::arg` has read of a possible place marker. -/
inductive ArgScan where
  /-- outside a marker -/
  | plain
  /-- after `%` (flag false) or `%L` (flag true) -/
  | percent (locale : Bool)
  /-- after `%` or `%L` and one digit of value `d`; `raw` is the text so far -/
  | digit (locale : Bool) (d : Nat) (raw : QString)
  deriving DecidableEq, Repr

/-- The text read so far after `%` or `%L`. -/
def percentText (locale : Bool) : QString :=
  if locale then ['%', 'L'] else ['%']

/-- The scan of a format string into pieces (`findArgEscapes` of qstring.cpp):
a `%`, an optional `L`, then one or two characters with a digit value make a
place marker; a `%` (or `%L`) not followed by a digit is plain text and the
scan resumes at the character after it. -/
def argPieces (env : QtEnv) : ArgScan → QString → List ArgPiece
  | .plain, [] => []
  | .percent locale, [] => (percentText locale).map ArgPiece.text
  | .digit locale d raw, [] => [ArgPiece.marker locale d raw]
  | .plain, c :: cs =>
    if c = '%' then argPieces env (.percent false) cs
    else ArgPiece.text c :: argPieces env .plain cs
  | .percent locale, c :: cs =>
    if c = 'L' ∧ locale = false then argPieces env (.percent true) cs
    else
      match digitValue env c with
      | some d => argPieces env (.digit locale d (percentText locale ++ [c])) cs
      | none =>
        (percentText locale).map ArgPiece.text ++
          (if c = '%' then argPieces env (.percent false) cs
           else ArgPiece.text c :: argPieces env .plain cs)
  | .digit locale d raw, c :: cs =>
    match digitValue env c with
    | some e => ArgPiece.marker locale (10 * d + e) (raw ++ [c]) :: argPieces env .plain cs
    | none =>
      ArgPiece.marker locale d raw ::
        (if c = '%' then argPieces env (.percent false) cs
         else ArgPiece.text c :: argPieces env .plain cs)

/-- The lowest number among the place markers of a scanned format string. -/
def minMarker : List ArgPiece → Option Nat
  | [] => none
  | .text _ :: ps => minMarker ps
  | .marker _ n _ :: ps =>
    match minMarker ps with
    | none => some n
    | some m => some (min n m)

/-- The text of a scanned format string in which every marker numbered `m` is
replaced: by `a`, or by `la` when the marker carries the `L` flag. -/
def replaceMarkers (m : Nat) (a la : QString) : List ArgPiece → QString
  | [] => []
  | .text c :: ps => c :: replaceMarkers m a la ps
  | .marker locale n raw :: ps =>
    (if n = m then (if locale then la else a) else raw) ++ replaceMarkers m a la ps

/-- `QString::arg(const QString &a)`: every occurrence of the lowest numbered
place marker is replaced by `a`; a string without a marker is returned as it
is. -/
def arg (env : QtEnv) (fmt a : QString) : QString :=
  match minMarker (argPieces env .plain fmt) with
  | none => fmt
  | some m => replaceMarkers m a a (argPieces env .plain fmt)

/-- `QString::arg(int a)`: every occurrence of the lowest numbered place marker
is replaced by the decimal numeral of `a`, in the default locale's format for
a marker with the `L` flag. -/
def argInt (env : QtEnv) (fmt : QString) (a : Int) : QString :=
  match minMarker (argPieces env .plain fmt) with
  | none => fmt
  | some m => replaceMarkers m (intToString a) (env.localeNumber a) (argPieces env .plain fmt)

/-- The status of an installed package (`ContainerApps::AppStatus`, declared in
libertine/ContainerConfig.h, which is not among the sources; the code names
its value `New`). -/
inductive AppStatus where
  | New
  | other (code : Nat)
  deriving DecidableEq, Repr

/-- The install status of a container (`ContainerConfig::InstallStatus`,
declared in libertine/ContainerConfig.h, which is not among the sources);
`New` names the status a record starts with. -/
inductive InstallStatus where
  | New
  | other (code : Nat)
  deriving DecidableEq, Repr

/-- Modelled from the spec: the class ContainerApps (libertine/ContainerConfig.h
is not among the sources), a package name with its status. -/
structure ContainerApps where
  package_name : QString
  app_status : AppStatus
  deriving DecidableEq, Repr

/-- Modelled from the spec: the class ContainerArchives (libertine/ContainerConfig.h
is not among the sources), an archive name with its status. -/
structure ContainerArchives where
  archive_name : QString
  archive_status : QString
  deriving DecidableEq, Repr

/-- Modelled from the spec: the class ContainerConfig (libertine/ContainerConfig.h
is not among the sources): one container's identity, attributes and owned
sub-sequences. -/
structure ContainerConfig where
  container_id : QString
  name : QString
  container_type : QString
  distro_series : QString
  install_status : InstallStatus
  container_apps : List ContainerApps
  container_archives : List ContainerArchives
  deriving DecidableEq, Repr

/-- Modelled from the spec: the constructor
`ContainerConfig(container_id, name, type, distro_series, parent)` used by
`addNewContainer`; the new record has no app and no archive yet. -/
def ContainerConfig.create (container_id name type distro_series : QString) : ContainerConfig :=
  ⟨container_id, name, type, distro_series, InstallStatus.New, [], []⟩

/-- The store: the ordered sequence `configs_` and the key
`default_container_id_`. -/
structure ContainerConfigList where
  configs_ : List ContainerConfig
  default_container_id_ : QString
  deriving DecidableEq, Repr

/-- `ContainerConfigList(QObject* parent)`: the empty store. -/
def ContainerConfigList.empty : ContainerConfigList := ⟨[], []⟩

/-- `ContainerConfigList::size()`. -/
def ContainerConfigList.size (self : ContainerConfigList) : Int :=
  self.configs_.length

/-- The values `addNewContainer` reads from its `image` map:
`image["distro_series"].toString()`, `image["container_id"].toString()` and
`image["name"].toString()` (empty for a key the map does not have). -/
structure Image where
  distro_series : QString
  container_id : QString
  name : QString
  deriving DecidableEq, Repr

/-- One turn of the loop of `generate_bis`, on the pair `(bis, max)`. -/
def generate_bis_step (env : QtEnv) (id : QString) (acc : Int × Int)
    (config : ContainerConfig) : Int × Int :=
  match reCaptures env config.container_id with
  | some (cap1, cap2) =>
    if cap1 = id then
      let bis := acc.1 + 1
      let r := toInt cap2
      if r.1 = true ∧ r.2 > 0 then (bis, max bis r.2) else (bis, acc.2)
    else acc
  | none => acc

/-- `ContainerConfigList::generate_bis`.  `++bis` stays within `int` (it is at
most the size of the list, an `int` in Qt); the final `+ 1` is wrapped. -/
def generate_bis (env : QtEnv) (self : ContainerConfigList) (id : QString) : Int :=
  let acc := self.configs_.foldl (generate_bis_step env id) (0, 0)
  if acc.1 > 0 then wrapInt (max acc.1 acc.2 + 1) else acc.1

/-- `ContainerConfigList::addNewContainer`: the returned id and the store
after the call. -/
def addNewContainer (env : QtEnv) (self : ContainerConfigList) (image : Image)
    (type : QString) : QString × ContainerConfigList :=
  let distro_series := if image.distro_series.isEmpty then image.container_id
    else image.distro_series
  let bis := generate_bis env self image.container_id
  let container_id := if bis > 0 then
      argInt env (arg env "%1-%2".toList image.container_id) bis
    else image.container_id
  let name := if bis > 0 then argInt env (arg env "%1 (%2)".toList image.name) bis
    else image.name
  let configs := self.configs_ ++ [ContainerConfig.create container_id name type distro_series]
  (container_id,
    ⟨configs, if (configs.length : Int) = 1 then container_id else self.default_container_id_⟩)

/-- The loop of `getContainerIndex`, from row `i` on. -/
def getContainerIndexFrom (container_id : QString) : List ContainerConfig → Int → Int
  | [], _ => -1
  | config :: rest, i =>
    if config.container_id = container_id then i
    else getContainerIndexFrom container_id rest (i + 1)

/-- `ContainerConfigList::getContainerIndex`. -/
def getContainerIndex (self : ContainerConfigList) (container_id : QString) : Int :=
  getContainerIndexFrom container_id self.configs_ 0

/-- `configs_.front()->container_id()`, which the code reads on a non-empty
sequence only. -/
def frontId : List ContainerConfig → QString
  | front :: _ => front.container_id
  | [] => []

/-- `ContainerConfigList::deleteContainer`: the returned flag and the store
after the call. -/
def deleteContainer (self : ContainerConfigList) (container_id : QString) :
    Bool × ContainerConfigList :=
  let index := getContainerIndex self container_id
  if index > -1 then
    let configs := self.configs_.eraseIdx index.toNat
    if self.default_container_id_ = container_id ∧ configs ≠ [] then
      (true, ⟨configs, frontId configs⟩)
    else if configs = [] then (true, ⟨configs, []⟩)
    else (true, ⟨configs, self.default_container_id_⟩)
  else (false, self)

/-- A call made on the store by a client. -/
inductive Call where
  | add (image : Image) (type : QString)
  | delete (container_id : QString)
  deriving DecidableEq, Repr

/-- The store after one call. -/
def Call.apply (env : QtEnv) (self : ContainerConfigList) : Call → ContainerConfigList
  | .add image type => (addNewContainer env self image type).2
  | .delete container_id => (deleteContainer self container_id).2

/-- The store reached from the empty store by a sequence of calls. -/
def runCalls (env : QtEnv) (calls : List Call) : ContainerConfigList :=
  calls.foldl (Call.apply env) ContainerConfigList.empty

/-- The ids of the records of a store, in sequence order. -/
def ContainerConfigList.ids (self : ContainerConfigList) : List QString :=
  self.configs_.map ContainerConfig.container_id

/-! ## Sample stores and the reference definition -/

/-- The store with the single record a and default b. -/
def store_a_default_b : ContainerConfigList :=
  ⟨[ContainerConfig.create ['a'] ['A'] ['l', 'x', 'c'] ['a']], ['b']⟩

/-- The store with the single record a and default a. -/
def store_a : ContainerConfigList :=
  ⟨[ContainerConfig.create ['a'] ['A'] ['l', 'x', 'c'] ['a']], ['a']⟩

/-- The store with records a, b, c (in this order) and default a. -/
def store_abc : ContainerConfigList :=
  ⟨[ContainerConfig.create ['a'] ['A'] ['l', 'x', 'c'] ['a'],
    ContainerConfig.create ['b'] ['B'] ['l', 'x', 'c'] ['b'],
    ContainerConfig.create ['c'] ['C'] ['l', 'x', 'c'] ['c']], ['a']⟩

/-- The numeric suffix of the existing id `s` as a match for the requested id
`X`, in the words of the specification: `some 0` when `s` is `X` itself,
`some n` when `s` is `X` followed by `-` and a decimal integer of value `n`,
`none` when `s` is not a match. -/
def matchSuffix (X s : QString) : Option Nat :=
  if s = X then some 0
  else if s.take X.length = X then
    match s.drop X.length with
    | '-' :: ds => if ds ≠ [] ∧ ds.all Char.isDigit = true then some (decimalValue ds) else none
    | _ => none
  else none

/-- The reference definition of the disambiguator, in the words of the
specification: with `count` the number of matches and `max_suffix` the largest
numeric suffix among them (0 if none), the result is 0 when `count = 0` and
`max(count, max_suffix) + 1` otherwise. -/
def generate_bis_reference (self : ContainerConfigList) (X : QString) : Int :=
  let suffixes := self.ids.filterMap (matchSuffix X)
  if suffixes.length = 0 then 0
  else max (suffixes.length : Int) ((suffixes.foldl max 0 : Nat) : Int) + 1

/-- The request for a container with the given id and name (no distro series). -/
def request (container_id name : String) : Image :=
  ⟨[], container_id.toList, name.toList⟩

/-- The store with records X-3, X-2 (in this order), as two calls of
`addNewContainer` with these ids leave it. -/
def store_X3_X2 : ContainerConfigList :=
  ⟨[ContainerConfig.create "X-3".toList "N".toList "lxc".toList "X-3".toList,
    ContainerConfig.create "X-2".toList "N".toList "lxc".toList "X-2".toList], "X-3".toList⟩

/-- The store with the single record ubuntu. -/
def store_ubuntu (name : String) : ContainerConfigList :=
  ⟨[ContainerConfig.create "ubuntu".toList name.toList "lxc".toList "ubuntu".toList],
    "ubuntu".toList⟩

/-! ## Lookups and installed packages -/

/-- The loop of `getContainerType`: the type of the first record with the id,
`"lxc"` (the value of `default_type`) when the loop ends without one. -/
def getContainerTypeFrom (container_id : QString) : List ContainerConfig → QString
  | [] => "lxc".toList
  | config :: rest =>
    if config.container_id = container_id then config.container_type
    else getContainerTypeFrom container_id rest

/-- `ContainerConfigList::getContainerType`. -/
def getContainerType (self : ContainerConfigList) (container_id : QString) : QString :=
  getContainerTypeFrom container_id self.configs_

/-- The loop of `addNewApp`: the first record with the id gets a new app with
status `New` at the end of its apps, and the loop ends there (`break`). -/
def addNewAppFrom (container_id package_name : QString) :
    List ContainerConfig → List ContainerConfig
  | [] => []
  | config :: rest =>
    if config.container_id = container_id then
      { config with
        container_apps := config.container_apps ++ [⟨package_name, AppStatus.New⟩] } :: rest
    else config :: addNewAppFrom container_id package_name rest

/-- `ContainerConfigList::addNewApp`: the store after the call. -/
def addNewApp (self : ContainerConfigList) (container_id package_name : QString) :
    ContainerConfigList :=
  ⟨addNewAppFrom container_id package_name self.configs_, self.default_container_id_⟩

/-- The inner loop of `isAppInstalled` and `getAppStatus`: the first app with
the package name, if any. -/
def findApp (package_name : QString) : List ContainerApps → Option ContainerApps
  | [] => none
  | app :: rest =>
    if app.package_name = package_name then some app else findApp package_name rest

/-- The outer loop of `isAppInstalled`: every record with the id is searched,
in sequence order, until an app with the package name is found. -/
def isAppInstalledFrom (container_id package_name : QString) : List ContainerConfig → Bool
  | [] => false
  | config :: rest =>
    if config.container_id = container_id then
      match findApp package_name config.container_apps with
      | some _ => true
      | none => isAppInstalledFrom container_id package_name rest
    else isAppInstalledFrom container_id package_name rest

/-- `ContainerConfigList::isAppInstalled`. -/
def isAppInstalled (self : ContainerConfigList) (container_id package_name : QString) : Bool :=
  isAppInstalledFrom container_id package_name self.configs_

/-- The outer loop of `getAppStatus`; `statusText` is `ContainerApps::app_status()`,
the text of a status (declared in libertine/ContainerConfig.h, which is not
among the sources).  The final `return nullptr` is the null string. -/
def getAppStatusFrom (statusText : AppStatus → QString) (container_id package_name : QString) :
    List ContainerConfig → QString
  | [] => []
  | config :: rest =>
    if config.container_id = container_id then
      match findApp package_name config.container_apps with
      | some app => statusText app.app_status
      | none => getAppStatusFrom statusText container_id package_name rest
    else getAppStatusFrom statusText container_id package_name rest

/-- `ContainerConfigList::getAppStatus`. -/
def getAppStatus (statusText : AppStatus → QString) (self : ContainerConfigList)
    (container_id package_name : QString) : QString :=
  getAppStatusFrom statusText container_id package_name self.configs_

/-! ## The list model: `data` -/

/-- The roles of the list model (`ContainerConfigList::DataRole`).  A role
number that is none of the enumerators takes no case of the `switch` in
`data`, as `Error` does. -/
inductive DataRole where
  | ContainerId
  | ContainerName
  | ContainerType
  | DistroSeries
  | InstallStatus
  | Error
  deriving DecidableEq, Repr

/-- A `QModelIndex`: row, column, and whether it belongs to a model. -/
structure QModelIndex where
  row : Int
  column : Int
  hasModel : Bool
  deriving DecidableEq, Repr

/-- `QModelIndex::isValid()`: the row and the column are not negative and the
index belongs to a model.  An index obtained while the model had more rows
stays valid after rows are removed. -/
def QModelIndex.isValid (index : QModelIndex) : Bool :=
  decide (0 ≤ index.row) && decide (0 ≤ index.column) && index.hasModel

/-- The value `data` returns: an invalid `QVariant` (no value), a string or
an `int`. -/
inductive QVariant where
  | invalid
  | string (s : QString)
  | int (n : Int)
  deriving DecidableEq, Repr

/-- What a call that indexes the record sequence comes to: a value, or an
access outside `0 <= i < size()`, which `QList::operator[]` does not allow. -/
inductive Access (α : Type) where
  | value (a : α)
  | outOfRange
  deriving DecidableEq, Repr

/-- `configs_[i]`: the record at position `i`, for `0 <= i < size()`. -/
def recordAt (configs : List ContainerConfig) (i : Int) : Access ContainerConfig :=
  if 0 ≤ i then
    match configs.get? i.toNat with
    | some config => Access.value config
    | none => Access.outOfRange
  else Access.outOfRange

/-- The field of a record that a role names; `statusCode` is
`static_cast<int>` on the install status (the enumeration is declared in
libertine/ContainerConfig.h, which is not among the sources). -/
def roleField (statusCode : InstallStatus → Int) (config : ContainerConfig) :
    DataRole → QVariant
  | .ContainerId => QVariant.string config.container_id
  | .ContainerName => QVariant.string config.name
  | .ContainerType => QVariant.string config.container_type
  | .DistroSeries => QVariant.string config.distro_series
  | .InstallStatus => QVariant.int (statusCode config.install_status)
  | .Error => QVariant.invalid

/-- `ContainerConfigList::data`.  The guard is `index.row() <= configs_.count()`,
as in the source; each case but `Error` reads `configs_[index.row()]`. -/
def data (statusCode : InstallStatus → Int) (self : ContainerConfigList) (index : QModelIndex)
    (role : DataRole) : Access QVariant :=
  if index.isValid = true ∧ index.row ≤ self.size then
    match role with
    | .Error => Access.value QVariant.invalid
    | field =>
      match recordAt self.configs_ index.row with
      | Access.value config => Access.value (roleField statusCode config field)
      | Access.outOfRange => Access.outOfRange
  else Access.value QVariant.invalid

/-! ## JSON and the backing file -/

/-- A `QJsonValue`.  Numbers are doubles in Qt; they do not occur at the level
of the store and are kept as rationals. -/
inductive QJsonValue where
  | undefined
  | null
  | bool (b : Bool)
  | double (d : Rat)
  | string (s : QString)
  | array (a : List QJsonValue)
  | object (o : List (QString × QJsonValue))

/-- A `QJsonObject`: keys with their values, no key twice. -/
abbrev QJsonObject := List (QString × QJsonValue)

/-- A `QJsonArray`. -/
abbrev QJsonArray := List QJsonValue

/-- `object[key]` read: the value of the key, `undefined` without the key. -/
def QJsonObject.value (o : QJsonObject) (key : QString) : QJsonValue :=
  match o with
  | [] => QJsonValue.undefined
  | (k, v) :: rest => if k = key then v else QJsonObject.value rest key

/-- `object[key] = v`: the value of the key is replaced, or the key is added. -/
def QJsonObject.insert (o : QJsonObject) (key : QString) (v : QJsonValue) : QJsonObject :=
  match o with
  | [] => [(key, v)]
  | (k, w) :: rest => if k = key then (k, v) :: rest else (k, w) :: QJsonObject.insert rest key v

/-- `QJsonValue::toString()`: the string, or the null string for another type. -/
def QJsonValue.toString : QJsonValue → QString
  | .string s => s
  | _ => []

/-- `QJsonValue::toArray()`: the array, or the empty array for another type. -/
def QJsonValue.toArray : QJsonValue → QJsonArray
  | .array a => a
  | _ => []

/-- `QJsonValue::toObject()`: the object, or the empty object for another type. -/
def QJsonValue.toObject : QJsonValue → QJsonObject
  | .object o => o
  | _ => []

/-- `Json_container_list`. -/
def Json_container_list : QString := "containerList".toList

/-- `Json_default_container`. -/
def Json_default_container : QString := "defaultContainer".toList

/-- `ContainerConfigList::toJson`; `configToJson` is `ContainerConfig::toJson`
(libertine/ContainerConfig.cpp is not among the sources). -/
def toJson (configToJson : ContainerConfig → QJsonObject) (self : ContainerConfigList) :
    QJsonObject :=
  let json_object := QJsonObject.insert [] Json_default_container
    (QJsonValue.string self.default_container_id_)
  let contents := self.configs_.map (fun config => QJsonValue.object (configToJson config))
  QJsonObject.insert json_object Json_container_list (QJsonValue.array contents)

/-- `ContainerConfigList(QJsonObject const& json_object, QObject* parent)`;
`configFromJson` is the constructor `ContainerConfig(QJsonObject const&, QObject*)`
(libertine/ContainerConfig.cpp is not among the sources). -/
def fromJson (configFromJson : QJsonObject → ContainerConfig) (json_object : QJsonObject) :
    ContainerConfigList :=
  if ¬ json_object.isEmpty then
    ⟨((QJsonObject.value json_object Json_container_list).toArray).map
        (fun config => configFromJson config.toObject),
      (QJsonObject.value json_object Json_default_container).toString⟩
  else ContainerConfigList.empty

/-- The content of a file, as bytes. -/
abbrev QByteArray := List Nat

/-- What `QJsonDocument::fromJson(bytes, &parse_error)` comes to: an error (the
document is then null), or a document that holds an object or an array. -/
inductive ParsedDocument where
  | error
  | object (o : QJsonObject)
  | array (a : QJsonArray)

/-- `json.object()`: the object of the document; the empty object when the
document is null or holds an array. -/
def ParsedDocument.toObject : ParsedDocument → QJsonObject
  | .object o => o
  | _ => []

/-- The backing file, as `load_config` sees it: whether it exists, whether it
can be opened for reading, and its content. -/
structure ConfigFile where
  exists_ : Bool
  opens : Bool
  content : QByteArray

/-- `ContainerConfigList::load_config`: the store after the call.  `parse` is
`QJsonDocument::fromJson` and `configFromJson` the constructor of a record
from its JSON object; warnings and the file lock do not change the store. -/
def load_config (parse : QByteArray → ParsedDocument)
    (configFromJson : QJsonObject → ContainerConfig) (self : ContainerConfigList)
    (config_file : ConfigFile) : ContainerConfigList :=
  if config_file.exists_ then
    if ¬ config_file.opens then self
    else if (config_file.content.length : Int) ≠ 0 then
      let json := parse config_file.content
      if ¬ json.toObject.isEmpty then
        ⟨((QJsonObject.value json.toObject Json_container_list).toArray).map
            (fun config => configFromJson config.toObject),
          (QJsonObject.value json.toObject Json_default_container).toString⟩
      else self
    else self
  else self

/-- `ContainerConfigList::reloadConfigs`: `load_config`, then the announcement
`configChanged`. -/
def reloadConfigs (parse : QByteArray → ParsedDocument)
    (configFromJson : QJsonObject → ContainerConfig) (self : ContainerConfigList)
    (config_file : ConfigFile) : ContainerConfigList :=
  load_config parse configFromJson self config_file

/-! ## Samples for the witnesses -/

/-- A text for each app status, for the witnesses. -/
def sampleStatusText : AppStatus → QString
  | .New => "new".toList
  | .other _ => "other".toList

/-- A record-level `toJson` for the witnesses: the four strings of a record. -/
def sampleConfigToJson (config : ContainerConfig) : QJsonObject :=
  [("id".toList, QJsonValue.string config.container_id),
   ("name".toList, QJsonValue.string config.name),
   ("type".toList, QJsonValue.string config.container_type),
   ("distro".toList, QJsonValue.string config.distro_series)]

/-- A record-level constructor from JSON for the witnesses, the inverse of
`sampleConfigToJson` on the records `ContainerConfig.create` makes. -/
def sampleConfigFromJson (o : QJsonObject) : ContainerConfig :=
  ContainerConfig.create (QJsonObject.value o "id".toList).toString
    (QJsonObject.value o "name".toList).toString
    (QJsonObject.value o "type".toList).toString
    (QJsonObject.value o "distro".toList).toString

/-- A parser for the witnesses: the two bytes `{}` are the empty object, every
other content is an error. -/
def sampleParse (bytes : QByteArray) : ParsedDocument :=
  if bytes = [123, 125] then ParsedDocument.object [] else ParsedDocument.error

/-- A file that exists, opens, and holds three bytes that are no JSON. -/
def file_garbage : ConfigFile := ⟨true, true, [1, 2, 3]⟩

/-- A file that does not exist. -/
def file_absent : ConfigFile := ⟨false, false, []⟩

/-- A file that exists, opens and has zero length. -/
def file_zero_length : ConfigFile := ⟨true, true, []⟩

/-! ## The ids that word requests produce -/

/-- The id with base `e.1` and numeric suffix `e.2`, where 0 stands for no
suffix. -/
def idOf (e : QString × Nat) : QString :=
  if e.2 = 0 then e.1 else e.1 ++ '-' :: Nat.toDigits 10 e.2

/-- The form of the ids of a store after at most `K` calls with word requests:
each id is a base of word characters, alone or with a numeric suffix of at
most `K`; ids of one base come with growing suffixes; there are at most `K`
ids. -/
def WordIds (env : QtEnv) (K : Nat) (ids : List QString) : Prop :=
  ∃ sh : List (QString × Nat), ids = sh.map idOf ∧
    (∀ e ∈ sh, ∀ c ∈ e.1, isWordChar env c = true) ∧
    sh.Pairwise (fun a b => a.1 = b.1 → a.2 < b.2) ∧
    (∀ e ∈ sh, e.2 ≤ K) ∧ sh.length ≤ K

/-- A sequence of calls with word requests: the id ubuntu three times, the
deletion of ubuntu-2, and the id ubuntu once more. -/
def calls_word_sample : List Call :=
  [Call.add (request "ubuntu" "Ubuntu") "lxc".toList,
   Call.add (request "ubuntu" "Ubuntu") "lxc".toList,
   Call.add (request "ubuntu" "Ubuntu") "lxc".toList,
   Call.delete "ubuntu-2".toList,
   Call.add (request "ubuntu" "Ubuntu") "lxc".toList]

theorem getContainerIndexFrom_absent (container_id : QString) (l : List ContainerConfig)
    (i : Int) (h : ∀ c ∈ l, c.container_id ≠ container_id) :
    getContainerIndexFrom container_id l i = -1 := by
  induction l generalizing i with
  | nil => rfl
  | cons c cs ih =>
    have hc : c.container_id ≠ container_id := h c (List.mem_cons_self c cs)
    simp only [getContainerIndexFrom, if_neg hc]
    exact ih (i + 1) (fun x hx => h x (List.mem_cons_of_mem c hx))

theorem getContainerIndexFrom_split (container_id : QString) (pre : List ContainerConfig)
    (r : ContainerConfig) (post : List ContainerConfig) (i : Int)
    (hpre : ∀ c ∈ pre, c.container_id ≠ container_id) (hr : r.container_id = container_id) :
    getContainerIndexFrom container_id (pre ++ r :: post) i = i + pre.length := by
  induction pre generalizing i with
  | nil => simp [getContainerIndexFrom, hr]
  | cons c cs ih =>
    have hc : c.container_id ≠ container_id := hpre c (List.mem_cons_self c cs)
    show getContainerIndexFrom container_id (c :: (cs ++ r :: post)) i = _
    rw [getContainerIndexFrom, if_neg hc,
      ih (i + 1) (fun x hx => hpre x (List.mem_cons_of_mem c hx))]
    simp only [List.length_cons, Nat.cast_add, Nat.cast_one]
    ring

theorem exists_first_with_id (container_id : QString) (l : List ContainerConfig)
    (h : ∃ c ∈ l, c.container_id = container_id) :
    ∃ pre r post, l = pre ++ r :: post ∧ (∀ c ∈ pre, c.container_id ≠ container_id) ∧
      r.container_id = container_id := by
  induction l with
  | nil => simp at h
  | cons c cs ih =>
    by_cases hc : c.container_id = container_id
    · exact ⟨[], c, cs, rfl, by simp, hc⟩
    · have h2 : ∃ x ∈ cs, x.container_id = container_id := by
        obtain ⟨x, hx, hxid⟩ := h
        rcases List.mem_cons.mp hx with rfl | hx
        · exact absurd hxid hc
        · exact ⟨x, hx, hxid⟩
      obtain ⟨pre, r, post, hl, hpre, hr⟩ := ih h2
      refine ⟨c :: pre, r, post, by simp [hl], ?_, hr⟩
      intro x hx
      rcases List.mem_cons.mp hx with rfl | hx
      · exact hc
      · exact hpre x hx

theorem eraseIdx_length_append {α : Type} (pre : List α) (r : α) (post : List α) :
    (pre ++ r :: post).eraseIdx pre.length = pre ++ post := by
  induction pre with
  | nil => rfl
  | cons c cs ih => simp [List.eraseIdx, ih]

theorem deleteContainer_absent (self : ContainerConfigList) (container_id : QString)
    (h : ∀ c ∈ self.configs_, c.container_id ≠ container_id) :
    deleteContainer self container_id = (false, self) := by
  simp [deleteContainer, getContainerIndex, getContainerIndexFrom_absent container_id _ 0 h]

theorem deleteContainer_split (self : ContainerConfigList) (container_id : QString)
    (pre : List ContainerConfig) (r : ContainerConfig) (post : List ContainerConfig)
    (hl : self.configs_ = pre ++ r :: post)
    (hpre : ∀ c ∈ pre, c.container_id ≠ container_id) (hr : r.container_id = container_id) :
    deleteContainer self container_id =
      (true, ⟨pre ++ post,
        match pre ++ post with
        | [] => []
        | front :: _ =>
          if self.default_container_id_ = container_id then front.container_id
          else self.default_container_id_⟩) := by
  have hi : getContainerIndex self container_id = (pre.length : Int) := by
    rw [getContainerIndex, hl, getContainerIndexFrom_split container_id pre r post 0 hpre hr]
    simp
  have hpos : (pre.length : Int) > -1 := by
    have : (0 : Int) ≤ (pre.length : Int) := Int.natCast_nonneg _
    omega
  simp only [deleteContainer, hi, if_pos hpos, Int.toNat_ofNat, hl, eraseIdx_length_append]
  cases hpp : pre ++ post with
  | nil => simp
  | cons f fs =>
    by_cases hd : self.default_container_id_ = container_id
    · simp [hd, frontId]
    · simp [hd]

theorem mem_ids_iff (self : ContainerConfigList) (container_id : QString) :
    container_id ∈ self.ids ↔ ∃ c ∈ self.configs_, c.container_id = container_id := by
  simp [ContainerConfigList.ids]

/-! ## Place markers and the rewritten id and name -/

theorem isWordChar_ne_percent (env : QtEnv) (c : Char) (h : isWordChar env c = true) :
    c ≠ '%' := by
  intro hc
  have hp : isWordChar env '%' = false := rfl
  rw [hc, hp] at h
  exact Bool.noConfusion h

theorem argPieces_plain_append (env : QtEnv) (xs rest : QString) (h : ∀ c ∈ xs, c ≠ '%') :
    argPieces env ArgScan.plain (xs ++ rest) =
      xs.map ArgPiece.text ++ argPieces env ArgScan.plain rest := by
  induction xs with
  | nil => rfl
  | cons c cs ih =>
    have hc : c ≠ '%' := h c (List.mem_cons_self c cs)
    show argPieces env ArgScan.plain (c :: (cs ++ rest)) = _
    rw [argPieces, if_neg hc, ih (fun x hx => h x (List.mem_cons_of_mem c hx))]
    rfl

theorem minMarker_text_append (xs : QString) (ps : List ArgPiece) :
    minMarker (xs.map ArgPiece.text ++ ps) = minMarker ps := by
  induction xs with
  | nil => rfl
  | cons c cs ih => simpa [minMarker] using ih

theorem replaceMarkers_text_append (m : Nat) (a la xs : QString) (ps : List ArgPiece) :
    replaceMarkers m a la (xs.map ArgPiece.text ++ ps) = xs ++ replaceMarkers m a la ps := by
  induction xs with
  | nil => rfl
  | cons c cs ih => simpa [replaceMarkers] using ih

theorem arg_id_format (env : QtEnv) (X : QString) :
    arg env "%1-%2".toList X = X ++ "-%2".toList := by
  have hp : argPieces env ArgScan.plain "%1-%2".toList =
      [ArgPiece.marker false 1 ['%', '1'], ArgPiece.text '-',
       ArgPiece.marker false 2 ['%', '2']] := rfl
  rw [arg, hp]
  simp [minMarker, replaceMarkers]

theorem arg_name_format (env : QtEnv) (N : QString) :
    arg env "%1 (%2)".toList N = N ++ " (%2)".toList := by
  have hp : argPieces env ArgScan.plain "%1 (%2)".toList =
      [ArgPiece.marker false 1 ['%', '1'], ArgPiece.text ' ', ArgPiece.text '(',
       ArgPiece.marker false 2 ['%', '2'], ArgPiece.text ')'] := rfl
  rw [arg, hp]
  simp [minMarker, replaceMarkers]

theorem argInt_id_format (env : QtEnv) (X : QString) (b : Int) (h : ∀ c ∈ X, c ≠ '%') :
    argInt env (X ++ "-%2".toList) b = X ++ '-' :: intToString b := by
  have hp : argPieces env ArgScan.plain "-%2".toList =
      [ArgPiece.text '-', ArgPiece.marker false 2 ['%', '2']] := rfl
  simp [argInt, argPieces_plain_append env X _ h, hp, minMarker_text_append,
    replaceMarkers_text_append, minMarker, replaceMarkers]

theorem argInt_name_format (env : QtEnv) (N : QString) (b : Int) (h : ∀ c ∈ N, c ≠ '%') :
    argInt env (N ++ " (%2)".toList) b = N ++ ' ' :: '(' :: (intToString b ++ [')']) := by
  have hp : argPieces env ArgScan.plain " (%2)".toList =
      [ArgPiece.text ' ', ArgPiece.text '(', ArgPiece.marker false 2 ['%', '2'],
       ArgPiece.text ')'] := rfl
  simp [argInt, argPieces_plain_append env N _ h, hp, minMarker_text_append,
    replaceMarkers_text_append, minMarker, replaceMarkers]

theorem reCaptures_fst_word (env : QtEnv) (s cap1 cap2 : QString)
    (h : reCaptures env s = some (cap1, cap2)) : ∀ c ∈ cap1, isWordChar env c = true := by
  have hc : cap1 = s.takeWhile (isWordChar env) := by
    unfold reCaptures at h
    split at h
    · simp at h
      exact h.1.symm
    · split at h
      · simp at h
        exact h.1.symm
      · simp at h
  intro c hcm
  rw [hc] at hcm
  exact (List.mem_takeWhile_imp hcm)

theorem generate_bis_fold_word (env : QtEnv) (id : QString) (l : List ContainerConfig)
    (acc : Int × Int) (hacc : acc.1 > 0 → ∀ c ∈ id, isWordChar env c = true)
    (h : (l.foldl (generate_bis_step env id) acc).1 > 0) :
    ∀ c ∈ id, isWordChar env c = true := by
  induction l generalizing acc with
  | nil => exact hacc h
  | cons x xs ih =>
    refine ih (generate_bis_step env id acc x) ?_ h
    intro hpos
    unfold generate_bis_step at hpos
    split at hpos
    · next cap1 cap2 hre =>
      by_cases hid : cap1 = id
      · rw [← hid]
        exact reCaptures_fst_word env _ cap1 cap2 hre
      · rw [if_neg hid] at hpos
        exact hacc hpos
    · exact hacc hpos

theorem generate_bis_pos_word (env : QtEnv) (self : ContainerConfigList) (id : QString)
    (h : generate_bis env self id > 0) : ∀ c ∈ id, isWordChar env c = true := by
  refine generate_bis_fold_word env id self.configs_ (0, 0) (fun h0 => absurd h0 (by decide)) ?_
  unfold generate_bis at h
  by_cases hp : (self.configs_.foldl (generate_bis_step env id) (0, 0)).1 > 0
  · exact hp
  · simp only [if_neg hp] at h
    exact h


/-- The record `addNewContainer` creates: its type and distro series, its id
and name when no disambiguator is applied, its id when one is applied, and its
name when one is applied and the requested name has no `%`. -/
theorem addNewContainer_fields (env : QtEnv) (self : ContainerConfigList) (image : Image)
    (type : QString) :
    ∃ r : ContainerConfig,
      addNewContainer env self image type =
        (r.container_id, ⟨self.configs_ ++ [r],
          if self.configs_ = [] then r.container_id else self.default_container_id_⟩) ∧
      r.container_type = type ∧
      r.distro_series =
        (if image.distro_series = [] then image.container_id else image.distro_series) ∧
      (generate_bis env self image.container_id ≤ 0 →
        r.container_id = image.container_id ∧ r.name = image.name) ∧
      (generate_bis env self image.container_id > 0 →
        r.container_id =
          image.container_id ++ '-' :: intToString (generate_bis env self image.container_id) ∧
        ((∀ c ∈ image.name, c ≠ '%') →
          r.name = image.name ++
            ' ' :: '(' :: (intToString (generate_bis env self image.container_id) ++ [')']))) := by
  refine ⟨ContainerConfig.create
    (if generate_bis env self image.container_id > 0 then
      argInt env (arg env "%1-%2".toList image.container_id)
        (generate_bis env self image.container_id)
     else image.container_id)
    (if generate_bis env self image.container_id > 0 then
      argInt env (arg env "%1 (%2)".toList image.name) (generate_bis env self image.container_id)
     else image.name)
    type
    (if image.distro_series.isEmpty then image.container_id else image.distro_series),
    ?_, rfl, ?_, ?_, ?_⟩
  · have hlen : ((self.configs_.length : Int) + 1 = 1) ↔ self.configs_ = [] := by
      constructor
      · intro h
        have h0 : self.configs_.length = 0 := by omega
        exact List.length_eq_zero.mp h0
      · intro h
        simp [h]
    simp only [addNewContainer, ContainerConfig.create, List.length_append,
      List.length_singleton, Nat.cast_add, Nat.cast_one, hlen]
  · simp [ContainerConfig.create, List.isEmpty_iff]
  · intro hb
    have hnb : ¬ generate_bis env self image.container_id > 0 := not_lt.mpr hb
    simp [ContainerConfig.create, hnb]
  · intro hb
    have hw := generate_bis_pos_word env self image.container_id hb
    have hX : ∀ c ∈ image.container_id, c ≠ '%' :=
      fun c hc => isWordChar_ne_percent env c (hw c hc)
    refine ⟨?_, fun hN => ?_⟩
    · simp only [ContainerConfig.create, if_pos hb, arg_id_format,
        argInt_id_format env _ _ hX]
    · simp only [ContainerConfig.create, if_pos hb, arg_name_format,
        argInt_name_format env _ _ hN]

/-! ## `addNewContainer` appends one record -/

theorem addNewContainer_shape (env : QtEnv) (self : ContainerConfigList) (image : Image)
    (type : QString) :
    ∃ r : ContainerConfig,
      addNewContainer env self image type =
        (r.container_id, ⟨self.configs_ ++ [r],
          if self.configs_ = [] then r.container_id else self.default_container_id_⟩) := by
  obtain ⟨r, hr, _⟩ := addNewContainer_fields env self image type
  exact ⟨r, hr⟩

/-! ## The scenarios of the specification -/

/-- The store `store_X3_X2` is reached from the empty store by two calls of
`addNewContainer`, with the ids X-3 and X-2. -/
theorem store_X3_X2_reached (env : QtEnv) :
    runCalls env [Call.add (request "X-3" "N") "lxc".toList,
      Call.add (request "X-2" "N") "lxc".toList] = store_X3_X2 :=
  rfl

/-- The store `store_ubuntu name` is reached from the empty store by one call
of `addNewContainer` with the id ubuntu and that name. -/
theorem store_ubuntu_reached (env : QtEnv) (name : String) :
    runCalls env [Call.add (request "ubuntu" name) "lxc".toList] = store_ubuntu name :=
  rfl

/-- Scenario 2: `addNewContainer` with the id ubuntu and the name Ubuntu, twice,
returns ubuntu and then ubuntu-2, and the stored names are `Ubuntu` and
`Ubuntu (2)`. -/
theorem scenario_ubuntu_twice (env : QtEnv) :
    (addNewContainer env ContainerConfigList.empty (request "ubuntu" "Ubuntu") "lxc".toList).1 =
      "ubuntu".toList ∧
    (addNewContainer env (store_ubuntu "Ubuntu") (request "ubuntu" "Ubuntu") "lxc".toList).1 =
      "ubuntu-2".toList ∧
    (runCalls env [Call.add (request "ubuntu" "Ubuntu") "lxc".toList,
      Call.add (request "ubuntu" "Ubuntu") "lxc".toList]).configs_.map ContainerConfig.name =
        ["Ubuntu".toList, "Ubuntu (2)".toList] := by
  have h1 := store_ubuntu_reached env "Ubuntu"
  have h2 : runCalls env [Call.add (request "ubuntu" "Ubuntu") "lxc".toList,
      Call.add (request "ubuntu" "Ubuntu") "lxc".toList] =
      Call.apply env (runCalls env [Call.add (request "ubuntu" "Ubuntu") "lxc".toList])
        (Call.add (request "ubuntu" "Ubuntu") "lxc".toList) := rfl
  have hb : generate_bis env (store_ubuntu "Ubuntu") "ubuntu".toList = 2 := rfl
  rw [h2, h1]
  simp only [Call.apply, addNewContainer, request, hb]
  exact ⟨rfl, rfl, rfl⟩

/-- Scenarios 3 and 4: deleting a from the records a, b, c with default a
leaves b, c with default b; deleting a from the single record a with default a
leaves the empty store with the empty default. -/
theorem scenario_delete_default :
    deleteContainer store_abc ['a'] =
      (true, ⟨[ContainerConfig.create ['b'] ['B'] ['l', 'x', 'c'] ['b'],
        ContainerConfig.create ['c'] ['C'] ['l', 'x', 'c'] ['c']], ['b']⟩) ∧
    deleteContainer store_a ['a'] = (true, ⟨[], []⟩) := by
  decide

/-! ## The claims of the specification -/

/-- C1, at the failing inputs. Two calls of `addNewContainer` with the id
a-b leave two records with the id a-b; and the calls with the ids X-3, X-2, X
(in this order) leave two records with the id X-3.  In both stores the ids are
not pairwise distinct. -/
theorem runCalls_duplicate_ids (env : QtEnv) :
    ((runCalls env [Call.add (request "a-b" "N") "lxc".toList,
      Call.add (request "a-b" "N") "lxc".toList]).ids = ["a-b".toList, "a-b".toList] ∧
     (runCalls env [Call.add (request "X-3" "N") "lxc".toList,
      Call.add (request "X-2" "N") "lxc".toList,
      Call.add (request "X" "N") "lxc".toList]).ids
        = ["X-3".toList, "X-2".toList, "X-3".toList]) ∧
    (¬ (runCalls env [Call.add (request "a-b" "N") "lxc".toList,
      Call.add (request "a-b" "N") "lxc".toList]).ids.Nodup ∧
     ¬ (runCalls env [Call.add (request "X-3" "N") "lxc".toList,
      Call.add (request "X-2" "N") "lxc".toList,
      Call.add (request "X" "N") "lxc".toList]).ids.Nodup) := by
  have ha : (runCalls env [Call.add (request "a-b" "N") "lxc".toList,
      Call.add (request "a-b" "N") "lxc".toList]).ids = ["a-b".toList, "a-b".toList] := rfl
  have h2 := store_X3_X2_reached env
  have h3 : runCalls env [Call.add (request "X-3" "N") "lxc".toList,
      Call.add (request "X-2" "N") "lxc".toList, Call.add (request "X" "N") "lxc".toList] =
      Call.apply env (runCalls env [Call.add (request "X-3" "N") "lxc".toList,
      Call.add (request "X-2" "N") "lxc".toList]) (Call.add (request "X" "N") "lxc".toList) := rfl
  have hb : generate_bis env store_X3_X2 "X".toList = 3 := rfl
  have hx : (runCalls env [Call.add (request "X-3" "N") "lxc".toList,
      Call.add (request "X-2" "N") "lxc".toList,
      Call.add (request "X" "N") "lxc".toList]).ids
        = ["X-3".toList, "X-2".toList, "X-3".toList] := by
    rw [h3, h2]
    simp only [Call.apply, addNewContainer, request, hb]
    rfl
  refine ⟨⟨ha, hx⟩, ?_, ?_⟩
  · rw [ha]
    decide
  · rw [hx]
    decide

/-- C2, at the failing input. In the store with the ids X-3, X-2 (in this
order) `generate_bis("X")` returns 3, while the reference definition (two
matches, largest suffix 3) gives 4. -/
theorem generate_bis_differs_from_reference (env : QtEnv) :
    generate_bis env store_X3_X2 "X".toList = 3 ∧
    generate_bis_reference store_X3_X2 "X".toList = 4 :=
  ⟨rfl, by decide⟩

/-- C3, at the failing input. In the store with the ids X-3, X-2 (in this
order) `addNewContainer` with the requested id X returns X-3, an id that is
already in the store. -/
theorem addNewContainer_returns_existing_id (env : QtEnv) :
    (addNewContainer env store_X3_X2 (request "X" "N") "lxc".toList).1 = "X-3".toList ∧
    "X-3".toList ∈ store_X3_X2.ids := by
  have hb : generate_bis env store_X3_X2 "X".toList = 3 := rfl
  refine ⟨?_, by decide⟩
  simp only [addNewContainer, request, hb]
  rfl

/-- C4, at the failing input. Two successive calls of `addNewContainer` with
the id ubuntu and the name `%1` return ubuntu and ubuntu-2, and the stored
names are `%1` and `2 (%2)`: the second name is not `%1 (2)`. -/
theorem repeated_creation_name_with_marker (env : QtEnv) :
    (runCalls env [Call.add (request "ubuntu" "%1") "lxc".toList,
      Call.add (request "ubuntu" "%1") "lxc".toList]).ids =
        ["ubuntu".toList, "ubuntu-2".toList] ∧
    (runCalls env [Call.add (request "ubuntu" "%1") "lxc".toList,
      Call.add (request "ubuntu" "%1") "lxc".toList]).configs_.map ContainerConfig.name =
        ["%1".toList, "2 (%2)".toList] ∧
    "2 (%2)".toList ≠ "%1 (2)".toList := by
  have h1 := store_ubuntu_reached env "%1"
  have h2 : runCalls env [Call.add (request "ubuntu" "%1") "lxc".toList,
      Call.add (request "ubuntu" "%1") "lxc".toList] =
      Call.apply env (runCalls env [Call.add (request "ubuntu" "%1") "lxc".toList])
        (Call.add (request "ubuntu" "%1") "lxc".toList) := rfl
  have hb : generate_bis env (store_ubuntu "%1") "ubuntu".toList = 2 := rfl
  rw [h2, h1]
  simp only [Call.apply, addNewContainer, request, hb]
  exact ⟨rfl, rfl, by decide⟩

/-- C5. Default-pointer invariant: in every store reached from the empty store
by a sequence of `addNewContainer` and `deleteContainer` calls,
`default_container_id_` is empty when the sequence of records is empty, and
is otherwise the `container_id` of one of the records. -/
theorem default_container_id_invariant (env : QtEnv) (calls : List Call) :
    ((runCalls env calls).configs_ = [] → (runCalls env calls).default_container_id_ = []) ∧
    ((runCalls env calls).configs_ ≠ [] →
      (runCalls env calls).default_container_id_ ∈ (runCalls env calls).ids) := by
  have step : ∀ (s : ContainerConfigList) (c : Call),
      ((s.configs_ = [] → s.default_container_id_ = []) ∧
        (s.configs_ ≠ [] → s.default_container_id_ ∈ s.ids)) →
      (((Call.apply env s c).configs_ = [] → (Call.apply env s c).default_container_id_ = []) ∧
        ((Call.apply env s c).configs_ ≠ [] →
          (Call.apply env s c).default_container_id_ ∈ (Call.apply env s c).ids)) := by
    intro s c hs
    cases c with
    | add image type =>
      obtain ⟨r, hr⟩ := addNewContainer_shape env s image type
      simp only [Call.apply, hr]
      refine ⟨fun h => absurd h (by simp), fun _ => ?_⟩
      by_cases he : s.configs_ = []
      · simp [he, ContainerConfigList.ids]
      · have := hs.2 he
        simp only [ContainerConfigList.ids] at this
        simp [he, ContainerConfigList.ids, this]
    | delete container_id =>
      by_cases hex : ∃ x ∈ s.configs_, x.container_id = container_id
      · obtain ⟨pre, r, post, hl, hpre, hr⟩ := exists_first_with_id container_id _ hex
        simp only [Call.apply, deleteContainer_split s container_id pre r post hl hpre hr]
        cases hpp : pre ++ post with
        | nil => simp
        | cons f fs =>
          refine ⟨fun h => absurd h (by simp), fun _ => ?_⟩
          by_cases hd : s.default_container_id_ = container_id
          · simp [hd, ContainerConfigList.ids]
          · have hne : s.configs_ ≠ [] := by simp [hl]
            have hmem := (mem_ids_iff s _).mp (hs.2 hne)
            obtain ⟨x, hx, hxid⟩ := hmem
            have hxr : x ≠ r := by
              intro hxr
              exact hd (by rw [← hxid, hxr, hr])
            have hx2 : x ∈ pre ++ post := by
              rw [hl] at hx
              simp only [List.mem_append, List.mem_cons] at hx ⊢
              rcases hx with hx | hx | hx
              · exact Or.inl hx
              · exact absurd hx hxr
              · exact Or.inr hx
            rw [hpp] at hx2
            simp only [if_neg hd, ContainerConfigList.ids, List.mem_map]
            exact ⟨x, hx2, hxid⟩
      · have habs : ∀ x ∈ s.configs_, x.container_id ≠ container_id :=
          fun x hx hxid => hex ⟨x, hx, hxid⟩
        simp only [Call.apply, deleteContainer_absent s container_id habs]
        exact hs
  have inv : ∀ (cs : List Call) (s : ContainerConfigList),
      ((s.configs_ = [] → s.default_container_id_ = []) ∧
        (s.configs_ ≠ [] → s.default_container_id_ ∈ s.ids)) →
      (((cs.foldl (Call.apply env) s).configs_ = [] →
          (cs.foldl (Call.apply env) s).default_container_id_ = []) ∧
        ((cs.foldl (Call.apply env) s).configs_ ≠ [] →
          (cs.foldl (Call.apply env) s).default_container_id_ ∈
            (cs.foldl (Call.apply env) s).ids)) := by
    intro cs
    induction cs with
    | nil => intro s hs; exact hs
    | cons c cs ih => intro s hs; exact ih _ (step s c hs)
  exact inv calls ContainerConfigList.empty ⟨fun _ => rfl, fun h => absurd rfl h⟩

/-- C6. Default reassignment: when `default_container_id_` is the id of some
record, `deleteContainer(default_container_id_)` leaves the default equal to
the `container_id` of the first record of the resulting sequence when records
remain, and empty when none remain. -/
theorem deleteContainer_default_reassigned (self : ContainerConfigList)
    (h : self.default_container_id_ ∈ self.ids) :
    (deleteContainer self self.default_container_id_).2.default_container_id_ =
      match (deleteContainer self self.default_container_id_).2.configs_ with
      | [] => []
      | front :: _ => front.container_id := by
  obtain ⟨pre, r, post, hl, hpre, hr⟩ :=
    exists_first_with_id _ _ ((mem_ids_iff self _).mp h)
  rw [deleteContainer_split self _ pre r post hl hpre hr]
  cases hpp : pre ++ post with
  | nil => rfl
  | cons f fs => simp

/-- The hypothesis and the statement of `deleteContainer_default_reassigned` in
the store with records a, b, c and default a. -/
theorem deleteContainer_default_reassigned_witness :
    store_abc.default_container_id_ ∈ store_abc.ids ∧
    (deleteContainer store_abc store_abc.default_container_id_).2.default_container_id_ =
      match (deleteContainer store_abc store_abc.default_container_id_).2.configs_ with
      | [] => []
      | front :: _ => front.container_id :=
  ⟨by decide, deleteContainer_default_reassigned store_abc (by decide)⟩

/-- C7 (as amended). Deleting a record whose id is in the store and is not the
default leaves `default_container_id_` unchanged when a record remains; when
the deleted record was the only one, the default is cleared. -/
theorem deleteContainer_other_keeps_default (self : ContainerConfigList)
    (container_id : QString) (hmem : container_id ∈ self.ids)
    (hne : container_id ≠ self.default_container_id_) :
    ((deleteContainer self container_id).2.configs_ ≠ [] →
      (deleteContainer self container_id).2.default_container_id_ =
        self.default_container_id_) ∧
    ((deleteContainer self container_id).2.configs_ = [] →
      (deleteContainer self container_id).2.default_container_id_ = []) := by
  obtain ⟨pre, r, post, hl, hpre, hr⟩ :=
    exists_first_with_id _ _ ((mem_ids_iff self _).mp hmem)
  rw [deleteContainer_split self _ pre r post hl hpre hr]
  cases hpp : pre ++ post with
  | nil => simp
  | cons f fs => simp [Ne.symm hne]

/-- The hypotheses and the statement of `deleteContainer_other_keeps_default`
in the store with records a, b, c and default a, for the id b. -/
theorem deleteContainer_other_keeps_default_witness :
    ['b'] ∈ store_abc.ids ∧ ['b'] ≠ store_abc.default_container_id_ ∧
    (((deleteContainer store_abc ['b']).2.configs_ ≠ [] →
      (deleteContainer store_abc ['b']).2.default_container_id_ =
        store_abc.default_container_id_) ∧
    ((deleteContainer store_abc ['b']).2.configs_ = [] →
      (deleteContainer store_abc ['b']).2.default_container_id_ = [])) :=
  ⟨by decide, by decide, deleteContainer_other_keeps_default store_abc ['b'] (by decide) (by decide)⟩

/-- C7, counterexample. In the store that holds the single record a while the
default is b, the id a is present and differs from the default, yet
`deleteContainer(a)` changes the default (to the empty string). -/
theorem deleteContainer_other_changes_default :
    ['a'] ∈ store_a_default_b.ids ∧ ['a'] ≠ store_a_default_b.default_container_id_ ∧
    (deleteContainer store_a_default_b ['a']).2.default_container_id_ ≠
      store_a_default_b.default_container_id_ := by
  decide

/-- C8. `deleteContainer(id)` returns true exactly when some record has that
id; it then removes the first such record and keeps the others in order (the
size drops by one); when it returns false the store is unchanged. -/
theorem deleteContainer_result (self : ContainerConfigList) (container_id : QString) :
    ((deleteContainer self container_id).1 = true ↔
      ∃ c ∈ self.configs_, c.container_id = container_id) ∧
    ((deleteContainer self container_id).1 = true →
      ∃ pre r post, self.configs_ = pre ++ r :: post ∧
        (∀ c ∈ pre, c.container_id ≠ container_id) ∧ r.container_id = container_id ∧
        (deleteContainer self container_id).2.configs_ = pre ++ post ∧
        (deleteContainer self container_id).2.size + 1 = self.size) ∧
    ((deleteContainer self container_id).1 = false →
      (deleteContainer self container_id).2 = self) := by
  by_cases hex : ∃ c ∈ self.configs_, c.container_id = container_id
  · obtain ⟨pre, r, post, hl, hpre, hr⟩ := exists_first_with_id container_id _ hex
    rw [deleteContainer_split self container_id pre r post hl hpre hr]
    refine ⟨⟨fun _ => hex, fun _ => rfl⟩, fun _ => ?_, fun h => absurd h (by simp)⟩
    refine ⟨pre, r, post, hl, hpre, hr, rfl, ?_⟩
    simp only [ContainerConfigList.size, hl, List.length_append, List.length_cons,
      Nat.cast_add, Nat.cast_one]
    ring
  · have habs : ∀ x ∈ self.configs_, x.container_id ≠ container_id :=
      fun x hx hxid => hex ⟨x, hx, hxid⟩
    rw [deleteContainer_absent self container_id habs]
    exact ⟨⟨fun h => absurd h (by simp), fun h => absurd h hex⟩,
      fun h => absurd h (by simp), fun _ => rfl⟩

/-- C9, at the failing input. In the store with the single record ubuntu,
`generate_bis("ubuntu")` is 2 and `addNewContainer` with the id ubuntu and the
name `%1` creates the record with the id ubuntu-2 and the name `2 (%2)`, not
`%1 (2)`. -/
theorem addNewContainer_name_with_marker (env : QtEnv) :
    generate_bis env (store_ubuntu "Ubuntu") "ubuntu".toList = 2 ∧
    (addNewContainer env (store_ubuntu "Ubuntu") (request "ubuntu" "%1") "lxc".toList).2.configs_ =
      (store_ubuntu "Ubuntu").configs_ ++
        [ContainerConfig.create "ubuntu-2".toList "2 (%2)".toList "lxc".toList "ubuntu".toList] ∧
    "2 (%2)".toList ≠ "%1 (2)".toList := by
  have hb : generate_bis env (store_ubuntu "Ubuntu") "ubuntu".toList = 2 := rfl
  refine ⟨hb, ?_, by decide⟩
  simp only [addNewContainer, request, hb]
  rfl

/-- C10. `addNewContainer` never rejects and only appends: the new sequence is
the prior one followed by one new record, whose id is the returned value; the
size grows by one; the default becomes the new record's id when the store was
empty and is unchanged otherwise. -/
theorem addNewContainer_appends (env : QtEnv) (self : ContainerConfigList) (image : Image)
    (type : QString) :
    ∃ r : ContainerConfig,
      (addNewContainer env self image type).2.configs_ = self.configs_ ++ [r] ∧
      r.container_id = (addNewContainer env self image type).1 ∧
      (addNewContainer env self image type).2.size = self.size + 1 ∧
      (self.configs_ = [] →
        (addNewContainer env self image type).2.default_container_id_ = r.container_id) ∧
      (self.configs_ ≠ [] →
        (addNewContainer env self image type).2.default_container_id_ =
          self.default_container_id_) := by
  obtain ⟨r, hr⟩ := addNewContainer_shape env self image type
  refine ⟨r, ?_⟩
  rw [hr]
  refine ⟨rfl, rfl, ?_, fun h => by simp [h], fun h => by simp [h]⟩
  simp [ContainerConfigList.size]

/-! ## Lookups -/

/-- C12. `getContainerIndex(id)` returns -1 exactly when no record has the id;
otherwise it returns the position of the first record with the id, which lies
in `0 <= i < size()`.  (The function only computes the index: there is no
store after the call other than the one before it.) -/
theorem getContainerIndex_result (self : ContainerConfigList) (container_id : QString) :
    (getContainerIndex self container_id = -1 ↔
      ∀ c ∈ self.configs_, c.container_id ≠ container_id) ∧
    (getContainerIndex self container_id ≠ -1 →
      ∃ pre r post, self.configs_ = pre ++ r :: post ∧
        (∀ c ∈ pre, c.container_id ≠ container_id) ∧ r.container_id = container_id ∧
        getContainerIndex self container_id = (pre.length : Int) ∧
        0 ≤ getContainerIndex self container_id ∧
        getContainerIndex self container_id < self.size) := by
  by_cases hex : ∃ c ∈ self.configs_, c.container_id = container_id
  · obtain ⟨pre, r, post, hl, hpre, hr⟩ := exists_first_with_id container_id _ hex
    have hi : getContainerIndex self container_id = (pre.length : Int) := by
      rw [getContainerIndex, hl, getContainerIndexFrom_split container_id pre r post 0 hpre hr]
      simp
    have h0 : (0 : Int) ≤ (pre.length : Int) := Int.natCast_nonneg _
    refine ⟨⟨fun h => ?_, fun h => ?_⟩, fun _ => ⟨pre, r, post, hl, hpre, hr, hi, ?_, ?_⟩⟩
    · rw [hi] at h
      omega
    · obtain ⟨c, hc, hcid⟩ := hex
      exact absurd hcid (h c hc)
    · rw [hi]
      exact h0
    · rw [hi]
      simp only [ContainerConfigList.size, hl, List.length_append, List.length_cons,
        Nat.cast_add, Nat.cast_one]
      omega
  · have habs : ∀ x ∈ self.configs_, x.container_id ≠ container_id :=
      fun x hx hxid => hex ⟨x, hx, hxid⟩
    have hi : getContainerIndex self container_id = -1 :=
      getContainerIndexFrom_absent container_id _ 0 habs
    exact ⟨⟨fun _ => habs, fun _ => hi⟩, fun h => absurd hi h⟩

theorem getContainerTypeFrom_absent (container_id : QString) (l : List ContainerConfig)
    (h : ∀ c ∈ l, c.container_id ≠ container_id) :
    getContainerTypeFrom container_id l = "lxc".toList := by
  induction l with
  | nil => rfl
  | cons c cs ih =>
    have hc : c.container_id ≠ container_id := h c (List.mem_cons_self c cs)
    rw [getContainerTypeFrom, if_neg hc]
    exact ih (fun x hx => h x (List.mem_cons_of_mem c hx))

theorem getContainerTypeFrom_split (container_id : QString) (pre : List ContainerConfig)
    (r : ContainerConfig) (post : List ContainerConfig)
    (hpre : ∀ c ∈ pre, c.container_id ≠ container_id) (hr : r.container_id = container_id) :
    getContainerTypeFrom container_id (pre ++ r :: post) = r.container_type := by
  induction pre with
  | nil => simp [getContainerTypeFrom, hr]
  | cons c cs ih =>
    have hc : c.container_id ≠ container_id := hpre c (List.mem_cons_self c cs)
    show getContainerTypeFrom container_id (c :: (cs ++ r :: post)) = _
    rw [getContainerTypeFrom, if_neg hc]
    exact ih (fun x hx => hpre x (List.mem_cons_of_mem c hx))

/-- C13. `getContainerType(id)` returns the `container_type` of the first
record with the id, and `"lxc"` when no record has the id. -/
theorem getContainerType_result (self : ContainerConfigList) (container_id : QString) :
    ((∀ c ∈ self.configs_, c.container_id ≠ container_id) →
      getContainerType self container_id = "lxc".toList) ∧
    (∀ pre r post, self.configs_ = pre ++ r :: post →
      (∀ c ∈ pre, c.container_id ≠ container_id) → r.container_id = container_id →
      getContainerType self container_id = r.container_type) := by
  refine ⟨fun h => getContainerTypeFrom_absent container_id _ h, ?_⟩
  intro pre r post hl hpre hr
  rw [getContainerType, hl]
  exact getContainerTypeFrom_split container_id pre r post hpre hr

/-! ## Installed packages -/

theorem addNewAppFrom_absent (container_id package_name : QString) (l : List ContainerConfig)
    (h : ∀ c ∈ l, c.container_id ≠ container_id) :
    addNewAppFrom container_id package_name l = l := by
  induction l with
  | nil => rfl
  | cons c cs ih =>
    have hc : c.container_id ≠ container_id := h c (List.mem_cons_self c cs)
    rw [addNewAppFrom, if_neg hc, ih (fun x hx => h x (List.mem_cons_of_mem c hx))]

theorem addNewAppFrom_split (container_id package_name : QString) (pre : List ContainerConfig)
    (r : ContainerConfig) (post : List ContainerConfig)
    (hpre : ∀ c ∈ pre, c.container_id ≠ container_id) (hr : r.container_id = container_id) :
    addNewAppFrom container_id package_name (pre ++ r :: post) =
      pre ++ { r with container_apps := r.container_apps ++ [⟨package_name, AppStatus.New⟩] }
        :: post := by
  induction pre with
  | nil => simp [addNewAppFrom, hr]
  | cons c cs ih =>
    have hc : c.container_id ≠ container_id := hpre c (List.mem_cons_self c cs)
    show addNewAppFrom container_id package_name (c :: (cs ++ r :: post)) = _
    rw [addNewAppFrom, if_neg hc, ih (fun x hx => hpre x (List.mem_cons_of_mem c hx))]
    rfl

theorem isAppInstalledFrom_absent (container_id package_name : QString)
    (l : List ContainerConfig) (h : ∀ c ∈ l, c.container_id ≠ container_id) :
    isAppInstalledFrom container_id package_name l = false := by
  induction l with
  | nil => rfl
  | cons c cs ih =>
    have hc : c.container_id ≠ container_id := h c (List.mem_cons_self c cs)
    rw [isAppInstalledFrom, if_neg hc]
    exact ih (fun x hx => h x (List.mem_cons_of_mem c hx))

theorem getAppStatusFrom_absent (statusText : AppStatus → QString)
    (container_id package_name : QString) (l : List ContainerConfig)
    (h : ∀ c ∈ l, c.container_id ≠ container_id) :
    getAppStatusFrom statusText container_id package_name l = [] := by
  induction l with
  | nil => rfl
  | cons c cs ih =>
    have hc : c.container_id ≠ container_id := h c (List.mem_cons_self c cs)
    rw [getAppStatusFrom, if_neg hc]
    exact ih (fun x hx => h x (List.mem_cons_of_mem c hx))

theorem isAppInstalledFrom_skip (container_id package_name : QString)
    (pre rest : List ContainerConfig) (hpre : ∀ c ∈ pre, c.container_id ≠ container_id) :
    isAppInstalledFrom container_id package_name (pre ++ rest) =
      isAppInstalledFrom container_id package_name rest := by
  induction pre with
  | nil => rfl
  | cons c cs ih =>
    have hc : c.container_id ≠ container_id := hpre c (List.mem_cons_self c cs)
    show isAppInstalledFrom container_id package_name (c :: (cs ++ rest)) = _
    rw [isAppInstalledFrom, if_neg hc]
    exact ih (fun x hx => hpre x (List.mem_cons_of_mem c hx))

theorem getAppStatusFrom_skip (statusText : AppStatus → QString)
    (container_id package_name : QString) (pre rest : List ContainerConfig)
    (hpre : ∀ c ∈ pre, c.container_id ≠ container_id) :
    getAppStatusFrom statusText container_id package_name (pre ++ rest) =
      getAppStatusFrom statusText container_id package_name rest := by
  induction pre with
  | nil => rfl
  | cons c cs ih =>
    have hc : c.container_id ≠ container_id := hpre c (List.mem_cons_self c cs)
    show getAppStatusFrom statusText container_id package_name (c :: (cs ++ rest)) = _
    rw [getAppStatusFrom, if_neg hc]
    exact ih (fun x hx => hpre x (List.mem_cons_of_mem c hx))

theorem findApp_append_new_isSome (package_name : QString) (status : AppStatus)
    (apps : List ContainerApps) :
    (findApp package_name (apps ++ [⟨package_name, status⟩])).isSome = true := by
  induction apps with
  | nil => simp [findApp]
  | cons a as ih =>
    show (findApp package_name (a :: (as ++ [⟨package_name, status⟩]))).isSome = true
    rw [findApp]
    by_cases ha : a.package_name = package_name
    · simp [ha]
    · simp only [if_neg ha]
      exact ih

theorem findApp_append_new (package_name : QString) (status : AppStatus)
    (apps : List ContainerApps) (h : ∀ a ∈ apps, a.package_name ≠ package_name) :
    findApp package_name (apps ++ [⟨package_name, status⟩]) = some ⟨package_name, status⟩ := by
  induction apps with
  | nil => simp [findApp]
  | cons a as ih =>
    have ha : a.package_name ≠ package_name := h a (List.mem_cons_self a as)
    show findApp package_name (a :: (as ++ [⟨package_name, status⟩])) = _
    rw [findApp, if_neg ha]
    exact ih (fun x hx => h x (List.mem_cons_of_mem a hx))

/-- C14. `addNewApp` on an unknown container: when no record has the id `c`,
`addNewApp(c, p)` leaves the whole store unchanged, and afterwards
`getAppStatus(c, p)` returns the null string and `isAppInstalled(c, p)` is
false. -/
theorem addNewApp_unknown_container (statusText : AppStatus → QString)
    (self : ContainerConfigList) (c p : QString)
    (h : ∀ x ∈ self.configs_, x.container_id ≠ c) :
    addNewApp self c p = self ∧
    getAppStatus statusText (addNewApp self c p) c p = [] ∧
    isAppInstalled (addNewApp self c p) c p = false := by
  have hs : addNewApp self c p = self := by
    simp [addNewApp, addNewAppFrom_absent c p _ h]
  rw [hs]
  exact ⟨rfl, getAppStatusFrom_absent statusText c p _ h, isAppInstalledFrom_absent c p _ h⟩

/-- The hypothesis and the statement of `addNewApp_unknown_container` in the
store with records a, b, c, for the container x and the package pkg1 (scenario
5 of the specification). -/
theorem addNewApp_unknown_container_witness :
    (∀ x ∈ store_abc.configs_, x.container_id ≠ "x".toList) ∧
    (addNewApp store_abc "x".toList "pkg1".toList = store_abc ∧
     getAppStatus sampleStatusText (addNewApp store_abc "x".toList "pkg1".toList)
       "x".toList "pkg1".toList = [] ∧
     isAppInstalled (addNewApp store_abc "x".toList "pkg1".toList)
       "x".toList "pkg1".toList = false) :=
  ⟨by decide, addNewApp_unknown_container sampleStatusText store_abc "x".toList "pkg1".toList
    (by decide)⟩

/-- C18. `addNewApp` on a known container: when some record has the id `c`,
`addNewApp(c, p)` appends one app (package `p`, status `New`) to the apps of
the first record with the id and changes nothing else; afterwards
`isAppInstalled(c, p)` is true, and `getAppStatus(c, p)` returns the text of
`New` if `p` was not among that record's apps before. -/
theorem addNewApp_known_container (statusText : AppStatus → QString)
    (self : ContainerConfigList) (c p : QString) (h : c ∈ self.ids) :
    ∃ pre r post, self.configs_ = pre ++ r :: post ∧
      (∀ x ∈ pre, x.container_id ≠ c) ∧ r.container_id = c ∧
      addNewApp self c p =
        ⟨pre ++ { r with container_apps := r.container_apps ++ [⟨p, AppStatus.New⟩] } :: post,
          self.default_container_id_⟩ ∧
      isAppInstalled (addNewApp self c p) c p = true ∧
      ((∀ a ∈ r.container_apps, a.package_name ≠ p) →
        getAppStatus statusText (addNewApp self c p) c p = statusText AppStatus.New) := by
  obtain ⟨pre, r, post, hl, hpre, hr⟩ := exists_first_with_id c _ ((mem_ids_iff self c).mp h)
  have hs : addNewApp self c p =
      ⟨pre ++ { r with container_apps := r.container_apps ++ [⟨p, AppStatus.New⟩] } :: post,
        self.default_container_id_⟩ := by
    rw [addNewApp, hl, addNewAppFrom_split c p pre r post hpre hr]
  refine ⟨pre, r, post, hl, hpre, hr, hs, ?_, ?_⟩
  · rw [hs, isAppInstalled, isAppInstalledFrom_skip c p pre _ hpre, isAppInstalledFrom]
    simp only [hr, if_true]
    have := findApp_append_new_isSome p AppStatus.New r.container_apps
    cases hf : findApp p (r.container_apps ++ [⟨p, AppStatus.New⟩]) with
    | none => rw [hf] at this; exact absurd this (by simp)
    | some a => rfl
  · intro hnew
    rw [hs, getAppStatus, getAppStatusFrom_skip statusText c p pre _ hpre, getAppStatusFrom]
    simp only [hr, if_true, findApp_append_new p AppStatus.New r.container_apps hnew]

/-- The hypothesis and the statement of `addNewApp_known_container` in the
store with records a, b, c, for the container b and the package pkg1. -/
theorem addNewApp_known_container_witness :
    "b".toList ∈ store_abc.ids ∧
    ∃ pre r post, store_abc.configs_ = pre ++ r :: post ∧
      (∀ x ∈ pre, x.container_id ≠ "b".toList) ∧ r.container_id = "b".toList ∧
      addNewApp store_abc "b".toList "pkg1".toList =
        ⟨pre ++ { r with container_apps := r.container_apps ++
            [⟨"pkg1".toList, AppStatus.New⟩] } :: post,
          store_abc.default_container_id_⟩ ∧
      isAppInstalled (addNewApp store_abc "b".toList "pkg1".toList)
        "b".toList "pkg1".toList = true ∧
      ((∀ a ∈ r.container_apps, a.package_name ≠ "pkg1".toList) →
        getAppStatus sampleStatusText (addNewApp store_abc "b".toList "pkg1".toList)
          "b".toList "pkg1".toList = sampleStatusText AppStatus.New) :=
  ⟨by decide, addNewApp_known_container sampleStatusText store_abc "b".toList "pkg1".toList
    (by decide)⟩

/-! ## The list model -/

theorem recordAt_size (configs : List ContainerConfig) :
    recordAt configs (configs.length : Int) = Access.outOfRange := by
  have h0 : (0 : Int) ≤ (configs.length : Int) := Int.natCast_nonneg _
  simp [recordAt, h0]

/-- C15, at the failing input. For every store, `data` at a valid index whose
row equals the current size does not return "no value" for a field role: the
guard `index.row() <= configs_.count()` lets the row through and
`configs_[index.row()]` indexes the record sequence out of range.  Only the
role `Error`, which reads no record, gives the invalid `QVariant`. -/
theorem data_at_size_out_of_range (statusCode : InstallStatus → Int)
    (self : ContainerConfigList) (role : DataRole) :
    (⟨self.size, 0, true⟩ : QModelIndex).isValid = true ∧
    data statusCode self ⟨self.size, 0, true⟩ role =
      if role = DataRole.Error then Access.value QVariant.invalid else Access.outOfRange := by
  have h0 : (0 : Int) ≤ self.size := Int.natCast_nonneg _
  have hv : (⟨self.size, 0, true⟩ : QModelIndex).isValid = true := by
    simp [QModelIndex.isValid, h0]
  refine ⟨hv, ?_⟩
  have hr : recordAt self.configs_ self.size = Access.outOfRange := recordAt_size self.configs_
  cases role <;> simp [data, hv, hr]

/-! ## JSON round trip and loading -/

theorem value_insert_same (o : QJsonObject) (key : QString) (v : QJsonValue) :
    QJsonObject.value (QJsonObject.insert o key v) key = v := by
  induction o with
  | nil => simp [QJsonObject.insert, QJsonObject.value]
  | cons kv rest ih =>
    obtain ⟨k, w⟩ := kv
    by_cases hk : k = key
    · simp [QJsonObject.insert, QJsonObject.value, hk]
    · simp [QJsonObject.insert, QJsonObject.value, hk, ih]

theorem value_insert_other (o : QJsonObject) (key other : QString) (v : QJsonValue)
    (h : key ≠ other) :
    QJsonObject.value (QJsonObject.insert o key v) other = QJsonObject.value o other := by
  induction o with
  | nil => simp [QJsonObject.insert, QJsonObject.value, h]
  | cons kv rest ih =>
    obtain ⟨k, w⟩ := kv
    by_cases hk : k = key
    · have hko : k ≠ other := by rw [hk]; exact h
      simp [QJsonObject.insert, QJsonObject.value, hk, h]
    · by_cases hko : k = other
      · subst hko
        simp [QJsonObject.insert, QJsonObject.value, hk]
      · simp [QJsonObject.insert, QJsonObject.value, hk, hko, ih]

theorem insert_ne_nil (o : QJsonObject) (key : QString) (v : QJsonValue) :
    QJsonObject.insert o key v ≠ [] := by
  cases o with
  | nil => simp [QJsonObject.insert]
  | cons kv rest =>
    obtain ⟨k, w⟩ := kv
    by_cases hk : k = key <;> simp [QJsonObject.insert, hk]

/-- C11. Round trip: when the record-level constructor from JSON undoes the
record-level `toJson` on the records of a store, the store constructed from
`toJson(store)` has the same default and the same records in the same order. -/
theorem fromJson_toJson (configToJson : ContainerConfig → QJsonObject)
    (configFromJson : QJsonObject → ContainerConfig) (self : ContainerConfigList)
    (h : ∀ r ∈ self.configs_, configFromJson (configToJson r) = r) :
    fromJson configFromJson (toJson configToJson self) = self := by
  have hne : Json_default_container ≠ Json_container_list := by decide
  have hnonempty : ¬ (toJson configToJson self).isEmpty = true := by
    rw [List.isEmpty_iff]
    exact insert_ne_nil _ _ _
  have hlist : QJsonObject.value (toJson configToJson self) Json_container_list =
      QJsonValue.array (self.configs_.map (fun config => QJsonValue.object (configToJson config))) :=
    value_insert_same _ _ _
  have hdefault : QJsonObject.value (toJson configToJson self) Json_default_container =
      QJsonValue.string self.default_container_id_ := by
    unfold toJson
    rw [value_insert_other _ _ _ _ (Ne.symm hne), value_insert_same]
  have hmap : (self.configs_.map (fun config => QJsonValue.object (configToJson config))).map
      (fun config => configFromJson config.toObject) = self.configs_ := by
    rw [List.map_map]
    conv_rhs => rw [← List.map_id self.configs_]
    exact List.map_congr_left (fun r hr => h r hr)
  unfold fromJson
  rw [if_pos hnonempty, hlist, hdefault]
  simp only [QJsonValue.toArray, QJsonValue.toString, hmap]

/-- The hypothesis and the statement of `fromJson_toJson` in the store with
records a, b, c, with the sample record-level conversions. -/
theorem fromJson_toJson_witness :
    (∀ r ∈ store_abc.configs_, sampleConfigFromJson (sampleConfigToJson r) = r) ∧
    fromJson sampleConfigFromJson (toJson sampleConfigToJson store_abc) = store_abc :=
  ⟨by decide, fromJson_toJson sampleConfigToJson sampleConfigFromJson store_abc (by decide)⟩

/-- C16. No partial load: when the content of the file fails to parse, or
parses to the empty object, `load_config` leaves the record sequence and the
default as they were. -/
theorem load_config_parse_failure (parse : QByteArray → ParsedDocument)
    (configFromJson : QJsonObject → ContainerConfig) (self : ContainerConfigList)
    (config_file : ConfigFile)
    (h : parse config_file.content = ParsedDocument.error ∨
      parse config_file.content = ParsedDocument.object []) :
    load_config parse configFromJson self config_file = self := by
  have hobj : (parse config_file.content).toObject = [] := by
    rcases h with h | h <;> rw [h] <;> rfl
  unfold load_config
  split
  · split
    · rfl
    · split
      · simp [hobj]
      · rfl
  · rfl

/-- The hypothesis and the statement of `load_config_parse_failure` for the
store with records a, b, c and a file of three bytes that are no JSON. -/
theorem load_config_parse_failure_witness :
    (sampleParse file_garbage.content = ParsedDocument.error ∨
      sampleParse file_garbage.content = ParsedDocument.object []) ∧
    load_config sampleParse sampleConfigFromJson store_abc file_garbage = store_abc :=
  ⟨Or.inl rfl, load_config_parse_failure sampleParse sampleConfigFromJson store_abc file_garbage
    (Or.inl rfl)⟩

/-- C17 (as amended). Against a backing file that is absent or has zero
length, `load_config` and `reloadConfigs` leave the store as it was; a store
that was empty is empty afterwards. -/
theorem load_config_absent_or_empty (parse : QByteArray → ParsedDocument)
    (configFromJson : QJsonObject → ContainerConfig) (self : ContainerConfigList)
    (config_file : ConfigFile)
    (h : config_file.exists_ = false ∨ config_file.content = []) :
    load_config parse configFromJson self config_file = self ∧
    reloadConfigs parse configFromJson self config_file = self ∧
    (self = ContainerConfigList.empty →
      (load_config parse configFromJson self config_file).size = 0 ∧
      (load_config parse configFromJson self config_file).default_container_id_ = []) := by
  have hl : load_config parse configFromJson self config_file = self := by
    unfold load_config
    rcases h with h | h
    · simp [h]
    · simp [h]
  refine ⟨hl, hl, fun he => ?_⟩
  rw [hl, he]
  exact ⟨rfl, rfl⟩

/-- The hypothesis and the statement of `load_config_absent_or_empty` for the
empty store and a file of zero length (scenario 1 of the specification). -/
theorem load_config_absent_or_empty_witness :
    (file_zero_length.exists_ = false ∨ file_zero_length.content = []) ∧
    (load_config sampleParse sampleConfigFromJson ContainerConfigList.empty file_zero_length =
        ContainerConfigList.empty ∧
     reloadConfigs sampleParse sampleConfigFromJson ContainerConfigList.empty file_zero_length =
        ContainerConfigList.empty ∧
     (ContainerConfigList.empty = ContainerConfigList.empty →
      (load_config sampleParse sampleConfigFromJson ContainerConfigList.empty
        file_zero_length).size = 0 ∧
      (load_config sampleParse sampleConfigFromJson ContainerConfigList.empty
        file_zero_length).default_container_id_ = [])) :=
  ⟨Or.inr rfl, load_config_absent_or_empty sampleParse sampleConfigFromJson
    ContainerConfigList.empty file_zero_length (Or.inr rfl)⟩

/-- C17, counterexample. With the single record a in the store and the backing
file absent, the file is absent and yet after `load_config` the store is not
empty: its size is 1 and its default is a. -/
theorem load_config_absent_keeps_records :
    file_absent.exists_ = false ∧
    (load_config sampleParse sampleConfigFromJson store_a file_absent).size = 1 ∧
    (load_config sampleParse sampleConfigFromJson store_a file_absent).default_container_id_ =
      ['a'] := by
  decide

/-! ## Decimal numerals -/

theorem eraseIdx_map_idOf (sh : List (QString × Nat)) (i : Nat) :
    (sh.map idOf).eraseIdx i = (sh.eraseIdx i).map idOf := by
  induction sh generalizing i with
  | nil => rfl
  | cons e sh ih =>
    cases i with
    | zero => rfl
    | succ i => simp [List.eraseIdx, ih]

theorem WordIds.eraseIdx (env : QtEnv) (K : Nat) (ids : List QString) (i : Nat)
    (h : WordIds env K ids) : WordIds env K (ids.eraseIdx i) := by
  obtain ⟨sh, hids, hw, hpw, hle, hlen⟩ := h
  have hsub := List.eraseIdx_sublist sh i
  refine ⟨sh.eraseIdx i, ?_, ?_, hpw.sublist hsub, ?_, ?_⟩
  · rw [hids, eraseIdx_map_idOf]
  · exact fun e he => hw e (hsub.subset he)
  · exact fun e he => hle e (hsub.subset he)
  · exact le_trans hsub.length_le hlen

/-- The store the calls of `calls_word_sample` leave: the ids ubuntu,
ubuntu-3, ubuntu-4. -/
theorem calls_word_sample_ids :
    (runCalls QtEnv.ascii calls_word_sample).ids =
      ["ubuntu".toList, "ubuntu-3".toList, "ubuntu-4".toList] := by
  rfl

/-! ## The values of `generate_bis` -/

theorem toInt_range (s : QString) : 0 ≤ (toInt s).2 ∧ (toInt s).2 ≤ INT_MAX := by
  unfold toInt
  split
  · next h =>
    exact ⟨Int.natCast_nonneg _, h.2.2⟩
  · exact ⟨le_refl _, by decide⟩

theorem generate_bis_step_range (env : QtEnv) (X : QString) (acc : Int × Int)
    (config : ContainerConfig) (h1 : 0 ≤ acc.1) (h2 : 0 ≤ acc.2) (h3 : acc.2 ≤ INT_MAX)
    (h4 : acc.1 + 1 ≤ INT_MAX) :
    acc.1 ≤ (generate_bis_step env X acc config).1 ∧
    (generate_bis_step env X acc config).1 ≤ acc.1 + 1 ∧
    0 ≤ (generate_bis_step env X acc config).2 ∧
    (generate_bis_step env X acc config).2 ≤ INT_MAX := by
  unfold generate_bis_step
  split
  · next cap1 cap2 _ =>
    have hr := toInt_range cap2
    by_cases hX : cap1 = X
    · simp only [if_pos hX]
      by_cases hok : (toInt cap2).1 = true ∧ (toInt cap2).2 > 0
      · simp only [if_pos hok]
        refine ⟨by omega, le_refl _, ?_, max_le h4 hr.2⟩
        have := le_max_left (acc.1 + 1) (toInt cap2).2
        omega
      · simp only [if_neg hok]
        exact ⟨by omega, le_refl _, h2, h3⟩
    · simp only [if_neg hX]
      exact ⟨le_refl _, by omega, h2, h3⟩
  · exact ⟨le_refl _, by omega, h2, h3⟩

theorem generate_bis_fold_range (env : QtEnv) (X : QString) :
    ∀ (l : List ContainerConfig) (acc : Int × Int), 0 ≤ acc.1 → 0 ≤ acc.2 →
      acc.2 ≤ INT_MAX → acc.1 + (l.length : Int) ≤ INT_MAX →
      0 ≤ (l.foldl (generate_bis_step env X) acc).1 ∧
      (l.foldl (generate_bis_step env X) acc).1 ≤ INT_MAX ∧
      0 ≤ (l.foldl (generate_bis_step env X) acc).2 ∧
      (l.foldl (generate_bis_step env X) acc).2 ≤ INT_MAX := by
  intro l
  induction l with
  | nil =>
    intro acc h1 h2 h3 h4
    simp only [List.length_nil, Nat.cast_zero, add_zero] at h4
    exact ⟨h1, h4, h2, h3⟩
  | cons c cs ih =>
    intro acc h1 h2 h3 h4
    simp only [List.length_cons, Nat.cast_add, Nat.cast_one] at h4
    have hcs : (0 : Int) ≤ (cs.length : Int) := Int.natCast_nonneg _
    obtain ⟨s1, s2, s3, s4⟩ := generate_bis_step_range env X acc c h1 h2 h3 (by omega)
    rw [List.foldl_cons]
    exact ih _ (by omega) s3 s4 (by omega)

/-- The values of `generate_bis`, for a store whose size is an `int` (as the
size of a `QList` is): 0, or at least 2, or the wrapped value of
`INT_MAX + 1` (when a matching id carries the suffix `INT_MAX`). -/
theorem generate_bis_values (env : QtEnv) (self : ContainerConfigList) (X : QString)
    (hsize : self.size ≤ INT_MAX) :
    generate_bis env self X = 0 ∨ 2 ≤ generate_bis env self X ∨
      generate_bis env self X = -2147483648 := by
  obtain ⟨f1, f2, f3, f4⟩ := generate_bis_fold_range env X self.configs_ (0, 0) (le_refl _)
    (le_refl _) (by decide) (by simpa [ContainerConfigList.size] using hsize)
  unfold generate_bis
  by_cases hp : (self.configs_.foldl (generate_bis_step env X) (0, 0)).1 > 0
  · simp only [if_pos hp]
    have hm1 := le_max_left (self.configs_.foldl (generate_bis_step env X) (0, 0)).1
      (self.configs_.foldl (generate_bis_step env X) (0, 0)).2
    have hm2 := max_le f2 f4
    unfold INT_MAX at hm2
    unfold wrapInt
    omega
  · simp only [if_neg hp]
    left
    omega

/-- The id and the name `addNewContainer` gives the new record, for a store
whose size is an `int`: the requested id and name when `generate_bis` is not
positive; otherwise the id followed by `-n` with `n` at least 2, and the name
followed by ` (n)` when the requested name has no `%`. -/
theorem addNewContainer_suffix_form (env : QtEnv) (self : ContainerConfigList) (image : Image)
    (type : QString) (hsize : self.size ≤ INT_MAX) :
    ∃ r : ContainerConfig,
      (addNewContainer env self image type).2.configs_ = self.configs_ ++ [r] ∧
      (addNewContainer env self image type).1 = r.container_id ∧
      ((r.container_id = image.container_id ∧ r.name = image.name) ∨
       (∃ n : Nat, 2 ≤ n ∧ generate_bis env self image.container_id = (n : Int) ∧
         r.container_id = image.container_id ++ '-' :: Nat.toDigits 10 n ∧
         ((∀ c ∈ image.name, c ≠ '%') →
           r.name = image.name ++ ' ' :: '(' :: (Nat.toDigits 10 n ++ [')'])))) := by
  obtain ⟨r, hr, _, _, hzero, hpos⟩ := addNewContainer_fields env self image type
  refine ⟨r, by rw [hr], by rw [hr], ?_⟩
  by_cases hb : generate_bis env self image.container_id > 0
  · right
    have h2 : 2 ≤ generate_bis env self image.container_id := by
      rcases generate_bis_values env self image.container_id hsize with h | h | h <;> omega
    have hnn : ¬ generate_bis env self image.container_id < 0 := by omega
    refine ⟨(generate_bis env self image.container_id).toNat, by omega, by omega, ?_, ?_⟩
    · rw [(hpos hb).1]
      simp only [intToString, hnn, if_false]
    · intro hN
      rw [(hpos hb).2 hN]
      simp only [intToString, hnn, if_false]
  · left
    exact hzero (by omega)

/-- C20, at the failing input. In the store with the single record ubuntu,
`generate_bis("ubuntu")` is 2 and `addNewContainer` with the id ubuntu and the
name `%2` returns ubuntu-2, but the stored name is `2 (2)`: neither the
requested name `%2` nor `%2 (2)`. -/
theorem addNewContainer_name_neither_form (env : QtEnv) :
    generate_bis env (store_ubuntu "Ubuntu") "ubuntu".toList = 2 ∧
    (addNewContainer env (store_ubuntu "Ubuntu") (request "ubuntu" "%2") "lxc".toList).1 =
      "ubuntu-2".toList ∧
    (addNewContainer env (store_ubuntu "Ubuntu") (request "ubuntu" "%2")
      "lxc".toList).2.configs_.map ContainerConfig.name = ["Ubuntu".toList, "2 (2)".toList] ∧
    "2 (2)".toList ≠ "%2".toList ∧ "2 (2)".toList ≠ "%2 (2)".toList := by
  have hb : generate_bis env (store_ubuntu "Ubuntu") "ubuntu".toList = 2 := rfl
  refine ⟨hb, ?_, ?_, by decide, by decide⟩
  · simp only [addNewContainer, request, hb]
    rfl
  · simp only [addNewContainer, request, hb]
    rfl

/-! ## A sequence of word requests that overflows the suffix -/

end Libertine
